import Mathlib

/-!
Verification of the quiz-bot dialog engine (`src/backend/src`).

Strings are modelled as `List Char`.  Rust `u8`/`u16` values become `Nat`
with an explicit `% 256` / `% 65536` where the source performs a narrowing
cast or a wrapping operation.  Fallible indexing (Rust panics) becomes
`Option`.
-/

/-! ## Text normalizer (`text_util.rs`) -/

/-- Membership in the character class `(?i)[a-zа-я0-9]` of the regex
`MEANINGLESS_SYMBOLS = (?i)[^a-zа-я0-9]+` (complement taken below).
Case-insensitive matching in the regex crate closes the class under Unicode
simple case folding, which adds `ſ` (U+017F), `K` (U+212A) and the Cyrillic
variant letters U+1C80–U+1C86 to the two letter ranges. -/
def isKeptChar (c : Char) : Bool :=
  (0x61 ≤ c.toNat && c.toNat ≤ 0x7A) ||      -- a-z
  (0x41 ≤ c.toNat && c.toNat ≤ 0x5A) ||      -- A-Z
  (0x30 ≤ c.toNat && c.toNat ≤ 0x39) ||      -- 0-9
  (0x430 ≤ c.toNat && c.toNat ≤ 0x44F) ||    -- а-я
  (0x410 ≤ c.toNat && c.toNat ≤ 0x42F) ||    -- А-Я
  c.toNat == 0x17F || c.toNat == 0x212A ||
  (0x1C80 ≤ c.toNat && c.toNat ≤ 0x1C86)

/-- A character matched by `MEANINGLESS_SYMBOLS`. -/
def isMeaningless (c : Char) : Bool := !(isKeptChar c)

/-- `Regex::replace(text, "")` for the pattern `[^…]+`: it deletes only the
leftmost maximal run of matching characters (`replace`, not `replace_all`). -/
def removeFirstRun : List Char → List Char
  | [] => []
  | c :: cs =>
    if isMeaningless c then cs.dropWhile isMeaningless
    else c :: removeFirstRun cs

/-- Rust `str::to_lowercase`, restricted to the Latin and Cyrillic repertoire
this program manipulates (identity on every other character). -/
def lowerChar (c : Char) : Char :=
  if 0x41 ≤ c.toNat && c.toNat ≤ 0x5A then Char.ofNat (c.toNat + 32)
  else if 0x410 ≤ c.toNat && c.toNat ≤ 0x42F then Char.ofNat (c.toNat + 0x20)
  else if 0x400 ≤ c.toNat && c.toNat ≤ 0x40F then Char.ofNat (c.toNat + 0x50)
  else if c.toNat == 0x212A then 'k'
  else c

/-- `text_util::answer_to_standard`:
`MEANINGLESS_SYMBOLS.replace(text, "").to_lowercase()`. -/
def answer_to_standard (text : List Char) : List Char :=
  (removeFirstRun text).map lowerChar

/-! ## Game definition (`game_def.rs`) -/

/-- `QuestionId(u8, u8)`: topic index and question index. -/
structure QuestionId where
  topic : Nat
  question : Nat
  deriving DecidableEq, Repr

structure Question where
  text : List Char
  answers : List (List Char)
  deriving DecidableEq, Repr

structure Topic where
  name : List Char
  key : List Char
  questions : List Question
  bonus : Nat
  deriving DecidableEq, Repr

structure GenericAnswers where
  yes : List (List Char)
  no : List (List Char)
  stop : List (List Char)
  deriving DecidableEq, Repr

structure Game where
  id : Nat
  name : List Char
  generic_answers : GenericAnswers
  topics : List Topic
  max_attempt : Option Nat
  deriving DecidableEq, Repr

def Game.is_yes (g : Game) (text : List Char) : Bool :=
  g.generic_answers.yes.any (· == text)

def Game.is_no (g : Game) (text : List Char) : Bool :=
  g.generic_answers.no.any (· == text)

def Game.is_stop (g : Game) (text : List Char) : Bool :=
  g.generic_answers.stop.any (· == text)

/-- Rust `str::contains`: `needle` occurs as a contiguous substring of
`hay`. -/
def strContains (hay needle : List Char) : Bool :=
  match hay with
  | [] => needle.isEmpty
  | c :: rest => needle.isPrefixOf (c :: rest) || strContains rest needle

/-- `Iterator::position`: index of the first element satisfying `p`. -/
def listPosition (p : α → Bool) : List α → Option Nat
  | [] => none
  | a :: l => if p a then some 0 else (listPosition p l).map (· + 1)

/-- `Game::find_topic`: position of the first topic whose key contains the
text, narrowed by the `as TopicId` (`as u8`) cast. -/
def Game.find_topic (g : Game) (text : List Char) : Option Nat :=
  (listPosition (fun t => strContains t.key text) g.topics).map (· % 256)

/-- `Game::get_question_from_topic`.  `r` is the random byte
(`rand::random::<u8>()`, modelled as an explicit oracle argument).
`num = questions.len() as u8`; when `num = 0` the Rust `r % num` panics,
modelled as `none`.  Out-of-range topic indexing also panics. -/
def Game.get_question_from_topic (g : Game) (id : Nat) (r : Nat) :
    Option QuestionId :=
  match g.topics.get? id with
  | none => none
  | some t =>
    let num := t.questions.length % 256
    if num = 0 then none else some ⟨id, (r % 256) % num⟩

/-- `Game::get_question_text` (indexing panics become `none`). -/
def Game.get_question_text (g : Game) (qid : QuestionId) : Option (List Char) :=
  (g.topics.get? qid.topic).bind fun t =>
    (t.questions.get? qid.question).map (·.text)

/-- `Game::is_correct_answer` (indexing panics become `none`). -/
def Game.is_correct_answer (g : Game) (qid : QuestionId) (text : List Char) :
    Option Bool :=
  (g.topics.get? qid.topic).bind fun t =>
    (t.questions.get? qid.question).map fun q => q.answers.any (· == text)

/-- `Game::get_bonus` (indexing panic becomes `none`). -/
def Game.get_bonus (g : Game) (topic_id : Nat) : Option Nat :=
  (g.topics.get? topic_id).map (·.bonus)

/-- `Game::is_complete`: `self.topics.len() as u8 == num_answers`, where the
caller passes `results.len() as u8`. -/
def Game.is_complete (g : Game) (num_answers : Nat) : Bool :=
  g.topics.length % 256 == num_answers % 256

def Game.topic_keys (g : Game) : List (List Char) :=
  g.topics.map (·.key)

/-- Representation bounds carried by the Rust field types: `bonus: u8`,
`max_attempt: Option<u8>`. -/
def Game.WF (g : Game) : Bool :=
  g.topics.all (fun t => t.bonus < 256) && g.max_attempt.all (fun m => m < 256)

/-! ## Session types (`types.rs`) -/

structure PlayerId where
  channel_id : List Char
  id : List Char
  deriving DecidableEq, Repr

structure TopicResult where
  topic_id : Nat
  score : Nat
  deriving DecidableEq, Repr

structure AnswerAttempt where
  question_id : QuestionId
  attempt : Nat
  deriving DecidableEq, Repr

inductive SessionState where
  | New
  | Deciding
  | Answering (a : AnswerAttempt)
  | ChoosingTopic
  | Terminated
  | Complete
  deriving DecidableEq, Repr

structure GameSession where
  player_id : PlayerId
  game_id : Nat
  state : SessionState
  results : List TopicResult
  score : Nat
  deriving DecidableEq, Repr

/-- `GameSession::new`. -/
def GameSession.new (player_id : PlayerId) (game_id : Nat) : GameSession :=
  { player_id := player_id, game_id := game_id, state := SessionState.New,
    results := [], score := 0 }

/-- `GameSession::record`: `self.score += score as u16` (u16 wrap-around made
explicit) and push of the new `TopicResult`. -/
def GameSession.record (s : GameSession) (topic_id score : Nat) : GameSession :=
  { s with score := (s.score + score) % 65536,
           results := s.results ++ [⟨topic_id, score⟩] }

/-- `GameSession::has_played`. -/
def GameSession.has_played (s : GameSession) (topic_id : Nat) : Bool :=
  s.results.any (·.topic_id == topic_id)

inductive ResponseMessage where
  | Greeting (name : List Char)
  | Rephrase
  | Rules (topics : List (List Char))
  | AnswerQuestion (text : List Char)
  | PleaseRetry
  | PleaseRetryLimits (left : Nat)
  | Incorrect
  | Correct (score : Nat)
  | GameComplete (score : Nat)
  | ChooseNextTopic
  | AlreadyAnswered
  | Quit
  deriving DecidableEq, Repr

/-! ## Dialog engine (`engine.rs`), one `MessageContext::process` step.

Each helper returns the updated session together with the responses it
emitted, in emission order; `none` models a Rust panic. -/

/-- `MessageContext::greet`. -/
def greet (g : Game) (s : GameSession) : GameSession × List ResponseMessage :=
  ({ s with state := SessionState.Deciding }, [ResponseMessage.Greeting g.name])

/-- `MessageContext::has_user_agreed_to_start`. -/
def has_user_agreed_to_start (g : Game) (s : GameSession) (msg : List Char) :
    GameSession × List ResponseMessage :=
  if g.is_yes msg then
    ({ s with state := SessionState.ChoosingTopic },
     [ResponseMessage.Rules g.topic_keys])
  else if g.is_no msg then
    ({ s with state := SessionState.Terminated }, [ResponseMessage.Quit])
  else
    (s, [ResponseMessage.Rephrase])

/-- `MessageContext::choose_topic`. -/
def choose_topic (g : Game) (s : GameSession) (msg : List Char) (r : Nat) :
    Option (GameSession × List ResponseMessage) :=
  match g.find_topic msg with
  | some topic_id =>
    if s.has_played topic_id then
      some (s, [ResponseMessage.AlreadyAnswered])
    else
      match g.get_question_from_topic topic_id r with
      | none => none
      | some question_id =>
        match g.get_question_text question_id with
        | none => none
        | some qtext =>
          some ({ s with state := SessionState.Answering ⟨question_id, 0⟩ },
                [ResponseMessage.AnswerQuestion qtext])
  | none => some (s, [ResponseMessage.Rephrase])

/-- `MessageContext::check_if_terminated`: `some` is the short-circuited
result of `process`, `none` means processing continues. -/
def check_if_terminated (g : Game) (s : GameSession) (msg : List Char) :
    Option (GameSession × List ResponseMessage) :=
  if s.state = SessionState.Terminated then some (s, [])
  else if g.is_stop msg then
    some ({ s with state := SessionState.Terminated }, [ResponseMessage.Quit])
  else none

/-- `MessageContext::answer_was_correct` (the bonus lookup indexes the topic
list, so it can panic). -/
def answer_was_correct (g : Game) (s : GameSession) (question_id : QuestionId) :
    Option (GameSession × List ResponseMessage) :=
  (g.get_bonus question_id.topic).map fun b =>
    let s1 := s.record question_id.topic b
    ({ s1 with state := SessionState.ChoosingTopic },
     [ResponseMessage.Correct s1.score])

/-- `MessageContext::answer_was_incorrect`; `next_attempt = num_attempt + 1`
is a `u8` sum, hence the `% 256`. -/
def answer_was_incorrect (max_attempt num_attempt : Nat)
    (question_id : QuestionId) (s : GameSession) :
    GameSession × List ResponseMessage :=
  let next_attempt := (num_attempt + 1) % 256
  if next_attempt ≥ max_attempt then
    ({ s.record question_id.topic 0 with state := SessionState.ChoosingTopic },
     [ResponseMessage.Incorrect])
  else
    ({ s with state := SessionState.Answering ⟨question_id, next_attempt⟩ },
     [ResponseMessage.PleaseRetryLimits (max_attempt - next_attempt)])

/-- `MessageContext::answer_question`. -/
def answer_question (g : Game) (s : GameSession) (msg : List Char)
    (a : AnswerAttempt) : Option (GameSession × List ResponseMessage) :=
  match g.is_correct_answer a.question_id msg with
  | none => none
  | some true => answer_was_correct g s a.question_id
  | some false =>
    match g.max_attempt with
    | some max_attempt =>
      some (answer_was_incorrect max_attempt a.attempt a.question_id s)
    | none => some (s, [ResponseMessage.PleaseRetry])

/-- `MessageContext::check_if_game_complete`. -/
def check_if_game_complete (g : Game) (s : GameSession) :
    GameSession × List ResponseMessage :=
  if g.is_complete s.results.length then
    ({ s with state := SessionState.Complete },
     [ResponseMessage.GameComplete s.score])
  else if s.state = SessionState.ChoosingTopic then
    (s, [ResponseMessage.ChooseNextTopic])
  else (s, [])

/-- `MessageContext::process` on a restored session `s`: normalizes the raw
`text` (as `MessageContext::new` does), runs the termination pre-check, then
the state dispatch.  `r` is the random byte used if a question is drawn. -/
def process (g : Game) (s : GameSession) (text : List Char) (r : Nat) :
    Option (GameSession × List ResponseMessage) :=
  match check_if_terminated g s (answer_to_standard text) with
  | some res => some res
  | none =>
    match s.state with
    | SessionState.New => some (greet g s)
    | SessionState.Deciding =>
      some (has_user_agreed_to_start g s (answer_to_standard text))
    | SessionState.ChoosingTopic =>
      choose_topic g s (answer_to_standard text) r
    | SessionState.Answering a =>
      match answer_question g s (answer_to_standard text) a with
      | none => none
      | some (s1, out1) =>
        some ((check_if_game_complete g s1).1,
              out1 ++ (check_if_game_complete g s1).2)
    | SessionState.Complete =>
      some (s, [ResponseMessage.GameComplete s.score])
    | SessionState.Terminated => some (s, [])

/-- Sessions reachable from a fresh session by processed messages (a step
exists only when processing does not panic). -/
inductive Reachable (g : Game) : GameSession → Prop where
  | init (player_id : PlayerId) (game_id : Nat) :
      Reachable g (GameSession.new player_id game_id)
  | step {s s2 : GameSession} {out : List ResponseMessage}
      (text : List Char) (r : Nat) :
      Reachable g s → process g s text r = some (s2, out) → Reachable g s2

/-- The spec-side notion for `find_topic`: topic `j` exists and its key
contains `text` as a contiguous substring. -/
def keyContainsText (g : Game) (text : List Char) (j : Nat) : Prop :=
  ∃ t, g.topics.get? j = some t ∧ ∃ p q, t.key = p ++ text ++ q

/-- Sum of the scores recorded in a result list. -/
def sumScores (rs : List TopicResult) : Nat := (rs.map (·.score)).sum

/-- Inductive invariant of the engine: the cumulative score is the sum of the
recorded scores, recorded topics are distinct and in range, and while a
question is being answered its topic is in range and not yet recorded. -/
def EngineInv (g : Game) (s : GameSession) : Prop :=
  s.score = sumScores s.results ∧
  (s.results.map (·.topic_id)).Nodup ∧
  (∀ tr ∈ s.results, tr.score < 256 ∧ tr.topic_id < 256 ∧
    tr.topic_id < g.topics.length) ∧
  (∀ a, s.state = SessionState.Answering a →
    a.attempt < 255 ∧
    a.question_id.topic < 256 ∧ a.question_id.topic < g.topics.length ∧
    ∀ tr ∈ s.results, tr.topic_id ≠ a.question_id.topic)

/-! ## Concrete fixtures used by the witnesses -/

def pidW : PlayerId := ⟨"1".data, "1".data⟩

def topicA : Topic := ⟨"t1".data, "key1".data, [⟨"q1".data, ["a1".data]⟩], 1⟩

def topicB : Topic := ⟨"t2".data, "key2".data, [⟨"q2".data, ["a2".data]⟩], 2⟩

def vocabW : GenericAnswers := ⟨["yes".data], ["no".data], ["stop".data]⟩

/-- A two-topic game with `max_attempt = 2`. -/
def gA : Game := ⟨1, "G".data, vocabW, [topicA, topicB], some 2⟩

/-- The same game with unlimited attempts. -/
def gNoMax : Game := ⟨1, "G".data, vocabW, [topicA, topicB], none⟩

/-- A game whose only topic has exactly 256 questions: non-empty, yet
`questions.len() as u8 = 0`. -/
def gBad : Game :=
  ⟨2, "B".data, vocabW, [⟨"t".data, "t".data,
    List.replicate 256 ⟨"q".data, []⟩, 0⟩], none⟩

/-- A session answering question 0 of topic 0 on its first attempt. -/
def sAnswerW : GameSession :=
  ⟨pidW, 1, SessionState.Answering ⟨⟨0, 0⟩, 0⟩, [], 0⟩

/-! ## Helper lemmas -/

theorem strContains_nil_needle (hay : List Char) : strContains hay [] = true := by
  cases hay with
  | nil => rfl
  | cons c rest => simp [strContains, List.isPrefixOf]

theorem strContains_iff (hay needle : List Char) :
    strContains hay needle = true ↔ ∃ p q, hay = p ++ needle ++ q := by
  induction hay with
  | nil =>
    simp only [strContains, List.isEmpty_iff]
    constructor
    · rintro rfl
      exact ⟨[], [], rfl⟩
    · rintro ⟨p, q, hpq⟩
      have hlen := congrArg List.length hpq
      simp only [List.length_nil, List.length_append] at hlen
      exact List.eq_nil_of_length_eq_zero (by omega)
  | cons c rest ih =>
    simp only [strContains, Bool.or_eq_true, ih, List.isPrefixOf_iff_prefix]
    constructor
    · rintro (⟨t, ht⟩ | ⟨p, q, hpq⟩)
      · exact ⟨[], t, by simpa using ht.symm⟩
      · exact ⟨c :: p, q, by simp [hpq]⟩
    · rintro ⟨p, q, hpq⟩
      cases p with
      | nil => exact Or.inl ⟨q, by simpa using hpq.symm⟩
      | cons c2 p2 =>
        simp only [List.cons_append, List.cons.injEq] at hpq
        exact Or.inr ⟨p2, q, hpq.2⟩

theorem listPosition_eq_some {α : Type} {p : α → Bool} {l : List α} {i : Nat} :
    listPosition p l = some i ↔
      (∃ a, l.get? i = some a ∧ p a = true) ∧
      (∀ j, j < i → ∀ b, l.get? j = some b → p b = false) := by
  induction l generalizing i with
  | nil => simp [listPosition]
  | cons a l ih =>
    by_cases hpa : p a = true
    · simp only [listPosition, hpa, if_pos]
      constructor
      · rintro h
        cases h
        exact ⟨⟨a, by simp [hpa]⟩, fun j hj => by omega⟩
      · rintro ⟨-, hmin⟩
        cases i with
        | zero => rfl
        | succ k => exact absurd (hmin 0 (Nat.succ_pos k) a rfl) (by simp [hpa])
    · simp only [listPosition, hpa, if_neg, Bool.false_eq_true, not_false_iff,
        Option.map_eq_some']
      cases i with
      | zero =>
        simp only [List.get?_cons_zero]
        constructor
        · rintro ⟨k, -, hk⟩
          omega
        · rintro ⟨⟨b, hb, hpb⟩, -⟩
          cases hb
          exact absurd hpb hpa
      | succ k =>
        constructor
        · rintro ⟨m, hm, hmk⟩
          have hk : m = k := by omega
          subst hk
          rcases ih.mp hm with ⟨hex, hmin⟩
          refine ⟨by simpa using hex, ?_⟩
          intro j hj b hb
          cases j with
          | zero =>
            simp only [List.get?_cons_zero, Option.some.injEq] at hb
            cases hb
            exact eq_false_of_ne_true hpa
          | succ j2 =>
            exact hmin j2 (by omega) b (by simpa using hb)
        · rintro ⟨hex, hmin⟩
          refine ⟨k, ih.mpr ⟨by simpa using hex, ?_⟩, rfl⟩
          intro j hj b hb
          exact hmin (j + 1) (by omega) b (by simpa using hb)

theorem listPosition_eq_none {α : Type} {p : α → Bool} {l : List α} :
    listPosition p l = none ↔ ∀ a ∈ l, p a = false := by
  induction l with
  | nil => simp [listPosition]
  | cons a l ih =>
    by_cases hpa : p a = true
    · simp [listPosition, hpa]
    · simp [listPosition, hpa, ih, eq_false_of_ne_true hpa]

theorem listPosition_lt_length {α : Type} {p : α → Bool} {l : List α} {i : Nat}
    (h : listPosition p l = some i) : i < l.length := by
  rcases (listPosition_eq_some.mp h).1 with ⟨a, ha, -⟩
  exact List.get?_eq_some.mp ha |>.1


theorem keyContainsText_iff {g : Game} {text : List Char} {j : Nat} :
    keyContainsText g text j ↔
      ∃ t, g.topics.get? j = some t ∧ strContains t.key text = true := by
  unfold keyContainsText
  constructor
  · rintro ⟨t, ht, hs⟩
    exact ⟨t, ht, (strContains_iff _ _).mpr hs⟩
  · rintro ⟨t, ht, hs⟩
    exact ⟨t, ht, (strContains_iff _ _).mp hs⟩

/-! ## Claims about the normalizer and the game-definition queries -/

/-- C4 (evaluation at the failing input): the code removes only the first
run of meaningless characters — `normalize " Hello!! "` is `"hello!! "`,
not the `"hello"` the spec promises. -/
theorem claim_C4 :
    answer_to_standard " Hello!! ".data = "hello!! ".data ∧
    "hello!! ".data ≠ "hello".data := by decide

/-- C5 (evaluation at the failing input): normalization is not idempotent;
`" a b"` normalizes to `"a b"`, which normalizes again to `"ab"`. -/
theorem claim_C5 :
    answer_to_standard (answer_to_standard " a b".data) ≠
      answer_to_standard " a b".data := by decide

/-- C6: `find_topic` returns the index of the first topic, in declared
order, whose key contains the input as a substring, and `none` when no
key contains it (stated for games whose topic count fits the `u8` id). -/
theorem claim_C6 (g : Game) (text : List Char) (hlen : g.topics.length ≤ 256) :
    (∀ i, g.find_topic text = some i ↔
       keyContainsText g text i ∧ ∀ j, j < i → ¬ keyContainsText g text j) ∧
    (g.find_topic text = none ↔ ∀ j, ¬ keyContainsText g text j) := by
  constructor
  · intro i
    constructor
    · intro h
      rcases Option.map_eq_some'.mp h with ⟨k, hk, hik⟩
      have hklt : k < g.topics.length := listPosition_lt_length hk
      have hkk : k % 256 = k := Nat.mod_eq_of_lt (by omega)
      rw [hkk] at hik
      subst hik
      rcases listPosition_eq_some.mp hk with ⟨⟨a, ha, hpa⟩, hmin⟩
      refine ⟨keyContainsText_iff.mpr ⟨a, ha, hpa⟩, ?_⟩
      intro j hj hkey
      rcases keyContainsText_iff.mp hkey with ⟨t, ht, hst⟩
      rw [hmin j hj t ht] at hst
      exact Bool.false_ne_true hst
    · rintro ⟨hkey, hmin⟩
      rcases keyContainsText_iff.mp hkey with ⟨t, ht, hst⟩
      have hilt : i < g.topics.length := (List.get?_eq_some.mp ht).1
      have hpos :
          listPosition (fun t => strContains t.key text) g.topics = some i := by
        refine listPosition_eq_some.mpr ⟨⟨t, ht, hst⟩, ?_⟩
        intro j hj b hb
        cases hx : strContains b.key text with
        | false => rfl
        | true =>
          exact absurd (keyContainsText_iff.mpr ⟨b, hb, hx⟩) (hmin j hj)
      unfold Game.find_topic
      rw [hpos]
      simp [Nat.mod_eq_of_lt (lt_of_lt_of_le hilt hlen)]
  · constructor
    · intro h j hkey
      rcases keyContainsText_iff.mp hkey with ⟨t, ht, hst⟩
      have hnone :
          listPosition (fun t => strContains t.key text) g.topics = none :=
        Option.map_eq_none'.mp h
      rw [listPosition_eq_none.mp hnone t (List.get?_mem ht)] at hst
      exact Bool.false_ne_true hst
    · intro h
      unfold Game.find_topic
      rw [listPosition_eq_none.mpr ?_]
      · rfl
      · intro a ha
        rcases List.mem_iff_get?.mp ha with ⟨n, hn⟩
        cases hx : strContains a.key text with
        | false => rfl
        | true => exact absurd (keyContainsText_iff.mpr ⟨a, hn, hx⟩) (h n)

theorem claim_C6_witness :
    (∀ i, gA.find_topic "key2".data = some i ↔
       keyContainsText gA "key2".data i ∧
       ∀ j, j < i → ¬ keyContainsText gA "key2".data j) ∧
    (gA.find_topic "key2".data = none ↔
       ∀ j, ¬ keyContainsText gA "key2".data j) :=
  claim_C6 gA "key2".data (by decide)

/-- C9: with at least one topic declared, the empty (fully stripped) input
matches the first topic, because every key contains the empty substring. -/
theorem claim_C9 (g : Game) (h : g.topics ≠ []) : g.find_topic [] = some 0 := by
  unfold Game.find_topic
  cases hx : g.topics with
  | nil => exact absurd hx h
  | cons t ts => simp [listPosition, strContains_nil_needle]

theorem claim_C9_witness : gA.find_topic [] = some 0 :=
  claim_C9 gA (by decide)

/-- C10 (amended): when the selected topic's question count is nonzero
modulo 256, question selection is total, stays in the topic, and the drawn
index is below the question count. -/
theorem claim_C10 (g : Game) (id r : Nat) (t : Topic)
    (ht : g.topics.get? id = some t) (hq : t.questions.length % 256 ≠ 0) :
    ∃ q : QuestionId, g.get_question_from_topic id r = some q ∧
      q.topic = id ∧ q.question < t.questions.length := by
  refine ⟨⟨id, (r % 256) % (t.questions.length % 256)⟩, ?_, rfl, ?_⟩
  · unfold Game.get_question_from_topic
    rw [ht]
    simp [hq]
  · exact lt_of_lt_of_le (Nat.mod_lt _ (Nat.pos_of_ne_zero hq)) (Nat.mod_le _ _)

theorem claim_C10_witness :
    ∃ q : QuestionId, gA.get_question_from_topic 0 77 = some q ∧
      q.topic = 0 ∧ q.question < topicA.questions.length :=
  claim_C10 gA 0 77 topicA rfl (by decide)

set_option maxRecDepth 4000 in
/-- C10 (counterexample to the claim as stated): a topic with a non-empty
question list of exactly 256 questions still reaches the `r % 0` panic. -/
theorem claim_C10_counterexample :
    (∃ t, gBad.topics.get? 0 = some t ∧ t.questions ≠ []) ∧
    gBad.get_question_from_topic 0 0 = none :=
  ⟨⟨⟨"t".data, "t".data, List.replicate 256 ⟨"q".data, []⟩, 0⟩, rfl,
    by decide⟩, by decide⟩

/-! ## Invariant machinery for the engine -/

theorem sumScores_append (rs : List TopicResult) (tr : TopicResult) :
    sumScores (rs ++ [tr]) = sumScores rs + tr.score := by
  simp [sumScores]

theorem sumScores_le (rs : List TopicResult)
    (h : ∀ tr ∈ rs, tr.score < 256) : sumScores rs ≤ 255 * rs.length := by
  induction rs with
  | nil => simp [sumScores]
  | cons a l ih =>
    have ha := h a (List.mem_cons_self a l)
    have hl := ih (fun tr htr => h tr (List.mem_cons_of_mem a htr))
    have : sumScores (a :: l) = a.score + sumScores l := by simp [sumScores]
    rw [this, List.length_cons]
    omega

theorem nodup_lt_length_le {l : List Nat} {n : Nat}
    (hn : l.Nodup) (hlt : ∀ x ∈ l, x < n) : l.length ≤ n := by
  classical
  calc l.length = l.toFinset.card := (List.toFinset_card_of_nodup hn).symm
    _ ≤ (Finset.range n).card := Finset.card_le_card
        (fun x hx => Finset.mem_range.mpr (hlt x (List.mem_toFinset.mp hx)))
    _ = n := Finset.card_range n

theorem WF_bonus {g : Game} (hwf : g.WF = true) {t : Topic}
    (ht : t ∈ g.topics) : t.bonus < 256 := by
  unfold Game.WF at hwf
  rw [Bool.and_eq_true] at hwf
  exact of_decide_eq_true (List.all_eq_true.mp hwf.1 t ht)

theorem WF_max {g : Game} (hwf : g.WF = true) {m : Nat}
    (hm : g.max_attempt = some m) : m < 256 := by
  unfold Game.WF at hwf
  rw [Bool.and_eq_true] at hwf
  have h2 := hwf.2
  rw [hm] at h2
  exact of_decide_eq_true h2

theorem find_topic_bounds {g : Game} {text : List Char} {i : Nat}
    (h : g.find_topic text = some i) : i < 256 ∧ i < g.topics.length := by
  rcases Option.map_eq_some'.mp h with ⟨k, hk, hik⟩
  have hlt := listPosition_lt_length hk
  subst hik
  exact ⟨Nat.mod_lt _ (by omega), lt_of_le_of_lt (Nat.mod_le _ _) hlt⟩

theorem has_played_false {s : GameSession} {tid : Nat}
    (h : s.has_played tid = false) : ∀ tr ∈ s.results, tr.topic_id ≠ tid := by
  intro tr htr
  unfold GameSession.has_played at h
  have := List.any_eq_false.mp h tr htr
  simpa using this

theorem results_length_le {g : Game} {s : GameSession}
    (hinv : EngineInv g s) : s.results.length ≤ 256 := by
  have hlt : ∀ x ∈ s.results.map (·.topic_id), x < 256 := by
    intro x hx
    rcases List.mem_map.mp hx with ⟨tr, htr, rfl⟩
    exact (hinv.2.2.1 tr htr).2.1
  have := nodup_lt_length_le hinv.2.1 hlt
  simpa using this

theorem score_add_lt {g : Game} {s : GameSession} {b : Nat}
    (hinv : EngineInv g s) (hb : b < 256) : s.score + b < 65536 := by
  have hs := hinv.1
  have h255 : sumScores s.results ≤ 255 * s.results.length :=
    sumScores_le _ (fun tr htr => (hinv.2.2.1 tr htr).1)
  have hlen := results_length_le hinv
  omega

theorem EngineInv_set_state {g : Game} {s : GameSession} {st2 : SessionState}
    (hinv : EngineInv g s) (h : ∀ a, st2 ≠ SessionState.Answering a) :
    EngineInv g { s with state := st2 } :=
  ⟨hinv.1, hinv.2.1, hinv.2.2.1, fun a ha => absurd ha (h a)⟩

theorem EngineInv_record {g : Game} {s : GameSession} {t b : Nat}
    (hinv : EngineInv g s) (ht256 : t < 256) (htlen : t < g.topics.length)
    (hfresh : ∀ tr ∈ s.results, tr.topic_id ≠ t) (hb : b < 256) :
    EngineInv g { s.record t b with state := SessionState.ChoosingTopic } := by
  have hsc := score_add_lt hinv hb
  refine ⟨?_, ?_, ?_, ?_⟩
  · show (s.score + b) % 65536 = sumScores (s.results ++ [⟨t, b⟩])
    rw [sumScores_append, Nat.mod_eq_of_lt hsc, hinv.1]
  · show ((s.results ++ [(⟨t, b⟩ : TopicResult)]).map (·.topic_id)).Nodup
    rw [List.map_append, List.nodup_append]
    refine ⟨hinv.2.1, by simp, ?_⟩
    intro x hx
    rcases List.mem_map.mp hx with ⟨tr, htr, rfl⟩
    simp only [List.map_cons, List.map_nil, List.mem_singleton]
    exact hfresh tr htr
  · intro tr htr
    rcases List.mem_append.mp htr with hold | hnew
    · exact hinv.2.2.1 tr hold
    · rcases List.mem_singleton.mp hnew with rfl
      exact ⟨hb, ht256, htlen⟩
  · intro a ha
    cases ha

theorem EngineInv_check_complete {g : Game} {s1 : GameSession}
    (hinv : EngineInv g s1) : EngineInv g (check_if_game_complete g s1).1 := by
  unfold check_if_game_complete
  split
  · exact EngineInv_set_state hinv (fun a h => by cases h)
  · split
    · exact hinv
    · exact hinv

theorem answering_in_progress {g : Game} {s : GameSession} {a : AnswerAttempt}
    (hinv : EngineInv g s) (hst : s.state = SessionState.Answering a) :
    s.results.length < g.topics.length := by
  rcases hinv.2.2.2 a hst with ⟨-, -, htlen, hfresh⟩
  have hnodup :
      (a.question_id.topic :: s.results.map (·.topic_id)).Nodup := by
    rw [List.nodup_cons]
    refine ⟨?_, hinv.2.1⟩
    intro hmem
    rcases List.mem_map.mp hmem with ⟨tr, htr, htop⟩
    exact hfresh tr htr htop
  have hlt : ∀ x ∈ a.question_id.topic :: s.results.map (·.topic_id),
      x < g.topics.length := by
    intro x hx
    rcases List.mem_cons.mp hx with rfl | hx2
    · exact htlen
    · rcases List.mem_map.mp hx2 with ⟨tr, htr, rfl⟩
      exact (hinv.2.2.1 tr htr).2.2
  have := nodup_lt_length_le hnodup hlt
  simp only [List.length_cons, List.length_map] at this
  omega

theorem get_question_topic_eq {g : Game} {id r : Nat} {qid : QuestionId}
    (h : g.get_question_from_topic id r = some qid) : qid.topic = id := by
  unfold Game.get_question_from_topic at h
  rcases hg : g.topics.get? id with _ | t
  · rw [hg] at h
    cases h
  · rw [hg] at h
    simp only at h
    split at h
    · cases h
    · cases h
      rfl

theorem EngineInv_answer {g : Game} {s s1 : GameSession} {msg : List Char}
    {a : AnswerAttempt} {out1 : List ResponseMessage}
    (hwf : g.WF = true) (hinv : EngineInv g s)
    (hst : s.state = SessionState.Answering a)
    (h : answer_question g s msg a = some (s1, out1)) : EngineInv g s1 := by
  rcases hinv.2.2.2 a hst with ⟨hatt, ht256, htlen, hfresh⟩
  unfold answer_question at h
  rcases hca : g.is_correct_answer a.question_id msg with _ | b
  · rw [hca] at h
    cases h
  · rw [hca] at h
    cases b
    · rcases hm : g.max_attempt with _ | m
      · rw [hm] at h
        simp only [Option.some.injEq, Prod.mk.injEq] at h
        obtain ⟨rfl, -⟩ := h
        exact hinv
      · rw [hm] at h
        simp only [Option.some.injEq] at h
        simp only [answer_was_incorrect] at h
        split at h
        · injection h with h1 h2
          subst h1
          exact EngineInv_record hinv ht256 htlen
            (fun tr htr => hfresh tr htr) (by omega)
        · rename_i hcond
          injection h with h1 h2
          subst h1
          refine ⟨hinv.1, hinv.2.1, hinv.2.2.1, ?_⟩
          intro a2 ha2
          cases ha2
          have hm255 := WF_max hwf hm
          have hattnew : (a.attempt + 1) % 256 < 255 := by omega
          exact ⟨hattnew, ht256, htlen, hfresh⟩
    · unfold answer_was_correct at h
      rcases hbon : g.get_bonus a.question_id.topic with _ | b2
      · rw [hbon] at h
        cases h
      · rw [hbon] at h
        simp only [Option.map_some', Option.some.injEq, Prod.mk.injEq] at h
        obtain ⟨h1, -⟩ := h
        subst h1
        have hb2 : b2 < 256 := by
          rcases Option.map_eq_some'.mp hbon with ⟨t, ht, rfl⟩
          exact WF_bonus hwf (List.get?_mem ht)
        exact EngineInv_record hinv ht256 htlen
          (fun tr htr => hfresh tr htr) hb2


theorem bool_eq_false {b : Bool} (h : ¬ b = true) : b = false := by
  cases b
  · rfl
  · exact absurd rfl h

/-! ### Evaluation lemmas for one `process` step -/

theorem process_terminated {g : Game} {s : GameSession} {text : List Char}
    {r : Nat} (hst : s.state = SessionState.Terminated) :
    process g s text r = some (s, []) := by
  unfold process check_if_terminated
  rw [if_pos hst]

theorem process_stop {g : Game} {s : GameSession} {text : List Char} {r : Nat}
    (hst : s.state ≠ SessionState.Terminated)
    (hstop : g.is_stop (answer_to_standard text) = true) :
    process g s text r =
      some ({ s with state := SessionState.Terminated },
            [ResponseMessage.Quit]) := by
  unfold process check_if_terminated
  rw [if_neg hst, hstop]
  rfl

theorem process_new {g : Game} {s : GameSession} {text : List Char} {r : Nat}
    (hst : s.state = SessionState.New)
    (hstop : g.is_stop (answer_to_standard text) = false) :
    process g s text r = some (greet g s) := by
  unfold process check_if_terminated
  rw [hst, hstop]
  rfl

theorem process_deciding {g : Game} {s : GameSession} {text : List Char}
    {r : Nat} (hst : s.state = SessionState.Deciding)
    (hstop : g.is_stop (answer_to_standard text) = false) :
    process g s text r =
      some (has_user_agreed_to_start g s (answer_to_standard text)) := by
  unfold process check_if_terminated
  rw [hst, hstop]
  rfl

theorem process_choosing {g : Game} {s : GameSession} {text : List Char}
    {r : Nat} (hst : s.state = SessionState.ChoosingTopic)
    (hstop : g.is_stop (answer_to_standard text) = false) :
    process g s text r = choose_topic g s (answer_to_standard text) r := by
  unfold process check_if_terminated
  rw [hst, hstop]
  rfl

theorem process_complete {g : Game} {s : GameSession} {text : List Char}
    {r : Nat} (hst : s.state = SessionState.Complete)
    (hstop : g.is_stop (answer_to_standard text) = false) :
    process g s text r =
      some (s, [ResponseMessage.GameComplete s.score]) := by
  unfold process check_if_terminated
  rw [hst, hstop]
  rfl

theorem process_answering {g : Game} {s s1 : GameSession} {text : List Char}
    {r : Nat} {a : AnswerAttempt} {out1 : List ResponseMessage}
    (hst : s.state = SessionState.Answering a)
    (hstop : g.is_stop (answer_to_standard text) = false)
    (hans : answer_question g s (answer_to_standard text) a = some (s1, out1)) :
    process g s text r =
      some ((check_if_game_complete g s1).1,
            out1 ++ (check_if_game_complete g s1).2) := by
  unfold process check_if_terminated
  rw [hst, hstop]
  simp only [reduceIte]
  rw [hans]
  rfl

theorem process_answering_none {g : Game} {s : GameSession} {text : List Char}
    {r : Nat} {a : AnswerAttempt}
    (hst : s.state = SessionState.Answering a)
    (hstop : g.is_stop (answer_to_standard text) = false)
    (hans : answer_question g s (answer_to_standard text) a = none) :
    process g s text r = none := by
  unfold process check_if_terminated
  rw [hst, hstop]
  simp only [reduceIte]
  rw [hans]
  rfl

/-! ### Evaluation lemmas for `choose_topic` -/

theorem choose_topic_none {g : Game} {s : GameSession} {msg : List Char}
    {r : Nat} (hft : g.find_topic msg = none) :
    choose_topic g s msg r = some (s, [ResponseMessage.Rephrase]) := by
  unfold choose_topic
  rw [hft]

theorem choose_topic_played {g : Game} {s : GameSession} {msg : List Char}
    {r : Nat} {tid : Nat} (hft : g.find_topic msg = some tid)
    (hp : s.has_played tid = true) :
    choose_topic g s msg r = some (s, [ResponseMessage.AlreadyAnswered]) := by
  unfold choose_topic
  rw [hft]
  simp only [hp, reduceIte]

theorem choose_topic_panic1 {g : Game} {s : GameSession} {msg : List Char}
    {r : Nat} {tid : Nat} (hft : g.find_topic msg = some tid)
    (hp : s.has_played tid = false)
    (hq : g.get_question_from_topic tid r = none) :
    choose_topic g s msg r = none := by
  unfold choose_topic
  rw [hft]
  simp only [hp, hq, reduceIte]
  rfl

theorem choose_topic_panic2 {g : Game} {s : GameSession} {msg : List Char}
    {r : Nat} {tid : Nat} {qid : QuestionId}
    (hft : g.find_topic msg = some tid)
    (hp : s.has_played tid = false)
    (hq : g.get_question_from_topic tid r = some qid)
    (hqt : g.get_question_text qid = none) :
    choose_topic g s msg r = none := by
  unfold choose_topic
  rw [hft]
  simp only [hp, hq, hqt, reduceIte]
  rfl

theorem choose_topic_found {g : Game} {s : GameSession} {msg : List Char}
    {r : Nat} {tid : Nat} {qid : QuestionId} {qt : List Char}
    (hft : g.find_topic msg = some tid)
    (hp : s.has_played tid = false)
    (hq : g.get_question_from_topic tid r = some qid)
    (hqt : g.get_question_text qid = some qt) :
    choose_topic g s msg r =
      some ({ s with state := SessionState.Answering ⟨qid, 0⟩ },
            [ResponseMessage.AnswerQuestion qt]) := by
  unfold choose_topic
  rw [hft]
  simp only [hp, hq, hqt, reduceIte]
  rfl

theorem EngineInv_step {g : Game} {s s2 : GameSession}
    {out : List ResponseMessage} {text : List Char} {r : Nat}
    (hwf : g.WF = true) (hinv : EngineInv g s)
    (h : process g s text r = some (s2, out)) : EngineInv g s2 := by
  by_cases hterm : s.state = SessionState.Terminated
  · rw [process_terminated hterm] at h
    simp only [Option.some.injEq, Prod.mk.injEq] at h
    obtain ⟨rfl, -⟩ := h
    exact hinv
  · by_cases hstop : g.is_stop (answer_to_standard text) = true
    · rw [process_stop hterm hstop] at h
      simp only [Option.some.injEq, Prod.mk.injEq] at h
      obtain ⟨rfl, -⟩ := h
      exact EngineInv_set_state hinv (fun a ha => by cases ha)
    · have hstopf := bool_eq_false hstop
      rcases hstate : s.state with _ | _ | a | _ | _ | _
      · rw [process_new hstate hstopf] at h
        simp only [greet, Option.some.injEq, Prod.mk.injEq] at h
        obtain ⟨rfl, -⟩ := h
        exact EngineInv_set_state hinv (fun a2 ha2 => by cases ha2)
      · rw [process_deciding hstate hstopf] at h
        simp only [has_user_agreed_to_start] at h
        split at h
        · simp only [Option.some.injEq, Prod.mk.injEq] at h
          obtain ⟨rfl, -⟩ := h
          exact EngineInv_set_state hinv (fun a2 ha2 => by cases ha2)
        · split at h
          · simp only [Option.some.injEq, Prod.mk.injEq] at h
            obtain ⟨rfl, -⟩ := h
            exact EngineInv_set_state hinv (fun a2 ha2 => by cases ha2)
          · simp only [Option.some.injEq, Prod.mk.injEq] at h
            obtain ⟨rfl, -⟩ := h
            exact hinv
      · rcases hans : answer_question g s (answer_to_standard text) a
          with _ | ⟨s1, out1⟩
        · rw [process_answering_none hstate hstopf hans] at h
          cases h
        · rw [process_answering hstate hstopf hans] at h
          simp only [Option.some.injEq, Prod.mk.injEq] at h
          obtain ⟨rfl, -⟩ := h
          exact EngineInv_check_complete (EngineInv_answer hwf hinv hstate hans)
      · rw [process_choosing hstate hstopf] at h
        rcases hft : g.find_topic (answer_to_standard text) with _ | tid
        · rw [choose_topic_none hft] at h
          simp only [Option.some.injEq, Prod.mk.injEq] at h
          obtain ⟨rfl, -⟩ := h
          exact hinv
        · by_cases hp : s.has_played tid = true
          · rw [choose_topic_played hft hp] at h
            simp only [Option.some.injEq, Prod.mk.injEq] at h
            obtain ⟨rfl, -⟩ := h
            exact hinv
          · have hpf := bool_eq_false hp
            rcases hq : g.get_question_from_topic tid r with _ | qid
            · rw [choose_topic_panic1 hft hpf hq] at h
              cases h
            · rcases hqt : g.get_question_text qid with _ | qt
              · rw [choose_topic_panic2 hft hpf hq hqt] at h
                cases h
              · rw [choose_topic_found hft hpf hq hqt] at h
                simp only [Option.some.injEq, Prod.mk.injEq] at h
                obtain ⟨rfl, -⟩ := h
                refine ⟨hinv.1, hinv.2.1, hinv.2.2.1, ?_⟩
                intro a2 ha2
                cases ha2
                have htopic := get_question_topic_eq hq
                rcases find_topic_bounds hft with ⟨h256, hlen⟩
                refine ⟨show (0:Nat) < 255 by omega,
                        by simpa [htopic] using h256,
                        by simpa [htopic] using hlen, ?_⟩
                intro tr htr
                rw [htopic]
                exact has_played_false hpf tr htr
      · exact absurd hstate hterm
      · rw [process_complete hstate hstopf] at h
        simp only [Option.some.injEq, Prod.mk.injEq] at h
        obtain ⟨rfl, -⟩ := h
        exact hinv

theorem EngineInv_new (g : Game) (player_id : PlayerId) (game_id : Nat) :
    EngineInv g (GameSession.new player_id game_id) := by
  refine ⟨rfl, List.nodup_nil, ?_, ?_⟩
  · intro tr htr
    cases htr
  · intro a ha
    cases ha

theorem EngineInv_reachable {g : Game} {s : GameSession}
    (hwf : g.WF = true) (hr : Reachable g s) : EngineInv g s := by
  induction hr with
  | init player_id game_id => exact EngineInv_new g player_id game_id
  | step text r hprev hstep ih => exact EngineInv_step hwf ih hstep

/-! ### Evaluation lemmas for `check_if_game_complete` -/

theorem check_complete_true {g : Game} {s1 : GameSession}
    (hc : g.is_complete s1.results.length = true) :
    check_if_game_complete g s1 =
      ({ s1 with state := SessionState.Complete },
       [ResponseMessage.GameComplete s1.score]) := by
  unfold check_if_game_complete
  rw [hc]
  rfl

theorem check_complete_false_choosing {g : Game} {s1 : GameSession}
    (hc : g.is_complete s1.results.length = false)
    (hst : s1.state = SessionState.ChoosingTopic) :
    check_if_game_complete g s1 = (s1, [ResponseMessage.ChooseNextTopic]) := by
  unfold check_if_game_complete
  rw [hc, if_pos hst]
  rfl

theorem check_complete_false_other {g : Game} {s1 : GameSession}
    (hc : g.is_complete s1.results.length = false)
    (hst : s1.state ≠ SessionState.ChoosingTopic) :
    check_if_game_complete g s1 = (s1, []) := by
  unfold check_if_game_complete
  rw [hc, if_neg hst]
  rfl

theorem is_complete_eq_true {g : Game} {n : Nat} (htl : g.topics.length < 256)
    (hn : n < 256) (h : g.topics.length = n) : g.is_complete n = true := by
  unfold Game.is_complete
  rw [Nat.mod_eq_of_lt htl, Nat.mod_eq_of_lt hn, h]
  simp

theorem is_complete_eq_false {g : Game} {n : Nat} (htl : g.topics.length < 256)
    (hn : n < 256) (h : g.topics.length ≠ n) : g.is_complete n = false := by
  unfold Game.is_complete
  rw [Nat.mod_eq_of_lt htl, Nat.mod_eq_of_lt hn]
  simp [h]

/-! ## Claims about the engine -/

/-- C1: in every session reachable from a fresh session by processed
messages, the cumulative score equals the sum of the recorded
`TopicResult` scores, and no topic id is recorded twice. -/
theorem claim_C1 (g : Game) (s : GameSession)
    (hwf : g.WF = true) (hr : Reachable g s) :
    s.score = sumScores s.results ∧ (s.results.map (·.topic_id)).Nodup := by
  have h := EngineInv_reachable hwf hr
  exact ⟨h.1, h.2.1⟩

theorem claim_C1_witness :
    (GameSession.new pidW 1).score = sumScores (GameSession.new pidW 1).results ∧
    ((GameSession.new pidW 1).results.map (·.topic_id)).Nodup :=
  claim_C1 gA (GameSession.new pidW 1) (by decide) (Reachable.init pidW 1)

/-- C7: a terminated session is sticky — processing any further message
emits nothing and returns the session unchanged. -/
theorem claim_C7 (g : Game) (s : GameSession) (text : List Char) (r : Nat)
    (h : s.state = SessionState.Terminated) :
    process g s text r = some (s, []) :=
  process_terminated h

theorem claim_C7_witness :
    process gA ⟨pidW, 1, SessionState.Terminated, [], 0⟩ "hi".data 0 =
      some (⟨pidW, 1, SessionState.Terminated, [], 0⟩, []) :=
  claim_C7 gA ⟨pidW, 1, SessionState.Terminated, [], 0⟩ "hi".data 0 rfl

/-- C2: a correct (non-stop) answer in the `Answering` state records the
topic with its bonus, adds the bonus to the score, and emits
`Correct(newScore)`; if the recorded-result count now equals the topic
count the turn ends with `GameComplete(score)` and state `Complete`
(no `ChooseNextTopic`), otherwise with `ChooseNextTopic` and state
`ChoosingTopic`. -/
theorem claim_C2 (g : Game) (s : GameSession) (text : List Char) (r : Nat)
    (qid : QuestionId) (n b : Nat)
    (hwf : g.WF = true) (htl : g.topics.length ≤ 255)
    (hr : Reachable g s)
    (hst : s.state = SessionState.Answering ⟨qid, n⟩)
    (hstop : g.is_stop (answer_to_standard text) = false)
    (hcorr : g.is_correct_answer qid (answer_to_standard text) = some true)
    (hb : g.get_bonus qid.topic = some b) :
    process g s text r = some
      ({ s with
          state := if s.results.length + 1 = g.topics.length
                   then SessionState.Complete else SessionState.ChoosingTopic,
          results := s.results ++ [⟨qid.topic, b⟩],
          score := s.score + b },
       if s.results.length + 1 = g.topics.length
       then [ResponseMessage.Correct (s.score + b),
             ResponseMessage.GameComplete (s.score + b)]
       else [ResponseMessage.Correct (s.score + b),
             ResponseMessage.ChooseNextTopic]) := by
  have hinv := EngineInv_reachable hwf hr
  have hb256 : b < 256 := by
    rcases Option.map_eq_some'.mp hb with ⟨t, ht, rfl⟩
    exact WF_bonus hwf (List.get?_mem ht)
  have hsc : s.score + b < 65536 := score_add_lt hinv hb256
  have hmod : (s.score + b) % 65536 = s.score + b := Nat.mod_eq_of_lt hsc
  have hres : s.results.length < g.topics.length :=
    answering_in_progress hinv hst
  have hans : answer_question g s (answer_to_standard text) ⟨qid, n⟩ =
      some ({ s with
                state := SessionState.ChoosingTopic,
                results := s.results ++ [⟨qid.topic, b⟩],
                score := s.score + b },
            [ResponseMessage.Correct (s.score + b)]) := by
    unfold answer_question answer_was_correct
    simp only [hcorr, hb, Option.map_some', GameSession.record, hmod]
  rw [process_answering hst hstop hans]
  by_cases hc : s.results.length + 1 = g.topics.length
  · have hcomp : g.is_complete
        (({ s with
              state := SessionState.ChoosingTopic,
              results := s.results ++ [⟨qid.topic, b⟩],
              score := s.score + b } : GameSession).results.length) = true := by
      have hl : ({ s with
            state := SessionState.ChoosingTopic,
            results := s.results ++ [⟨qid.topic, b⟩],
            score := s.score + b } : GameSession).results.length
          = s.results.length + 1 := by simp
      rw [hl]
      exact is_complete_eq_true (by omega) (by omega) hc.symm
    rw [check_complete_true hcomp]
    rw [if_pos hc, if_pos hc]
    rfl
  · have hcomp : g.is_complete
        (({ s with
              state := SessionState.ChoosingTopic,
              results := s.results ++ [⟨qid.topic, b⟩],
              score := s.score + b } : GameSession).results.length) = false := by
      have hl : ({ s with
            state := SessionState.ChoosingTopic,
            results := s.results ++ [⟨qid.topic, b⟩],
            score := s.score + b } : GameSession).results.length
          = s.results.length + 1 := by simp
      rw [hl]
      exact is_complete_eq_false (by omega) (by omega) (fun hx => hc hx.symm)
    rw [check_complete_false_choosing hcomp rfl]
    rw [if_neg hc, if_neg hc]
    rfl

theorem claim_C2_witness :
    process gA sAnswerW "a1".data 0 = some
      ({ sAnswerW with
          state := if sAnswerW.results.length + 1 = gA.topics.length
                   then SessionState.Complete else SessionState.ChoosingTopic,
          results := sAnswerW.results ++ [⟨(⟨0, 0⟩ : QuestionId).topic, 1⟩],
          score := sAnswerW.score + 1 },
       if sAnswerW.results.length + 1 = gA.topics.length
       then [ResponseMessage.Correct (sAnswerW.score + 1),
             ResponseMessage.GameComplete (sAnswerW.score + 1)]
       else [ResponseMessage.Correct (sAnswerW.score + 1),
             ResponseMessage.ChooseNextTopic]) := by
  have h0 : Reachable gA (GameSession.new pidW 1) := Reachable.init pidW 1
  have e1 : process gA (GameSession.new pidW 1) "hi".data 0 =
      some (⟨pidW, 1, SessionState.Deciding, [], 0⟩,
            [ResponseMessage.Greeting "G".data]) := by decide
  have h1 := Reachable.step "hi".data 0 h0 e1
  have e2 : process gA ⟨pidW, 1, SessionState.Deciding, [], 0⟩ "yes".data 0 =
      some (⟨pidW, 1, SessionState.ChoosingTopic, [], 0⟩,
            [ResponseMessage.Rules ["key1".data, "key2".data]]) := by decide
  have h2 := Reachable.step "yes".data 0 h1 e2
  have e3 : process gA ⟨pidW, 1, SessionState.ChoosingTopic, [], 0⟩
      "key1".data 0 =
      some (sAnswerW, [ResponseMessage.AnswerQuestion "q1".data]) := by decide
  have h3 := Reachable.step "key1".data 0 h2 e3
  exact claim_C2 gA sAnswerW "a1".data 0 ⟨0, 0⟩ 0 1 (by decide) (by decide) h3
    rfl (by decide) (by decide) (by decide)

/-- C3: with `maxAttempt = m` configured, an incorrect (non-stop) answer at
attempt `n` either (when `n+1 ≥ m`) emits `Incorrect`, records the topic
with score 0 and moves to `ChoosingTopic` followed by the completion check,
or (when `n+1 < m`) emits `PleaseRetryLimits (m-(n+1))` and stays on the
same question with the incremented attempt counter. -/
theorem claim_C3 (g : Game) (s : GameSession) (text : List Char) (r : Nat)
    (qid : QuestionId) (n m : Nat)
    (hwf : g.WF = true) (htl : g.topics.length ≤ 255)
    (hr : Reachable g s)
    (hst : s.state = SessionState.Answering ⟨qid, n⟩)
    (hstop : g.is_stop (answer_to_standard text) = false)
    (hcorr : g.is_correct_answer qid (answer_to_standard text) = some false)
    (hmax : g.max_attempt = some m) :
    process g s text r = some
      (if m ≤ n + 1 then
        ({ s with
            state := if s.results.length + 1 = g.topics.length
                     then SessionState.Complete
                     else SessionState.ChoosingTopic,
            results := s.results ++ [⟨qid.topic, 0⟩] },
         if s.results.length + 1 = g.topics.length
         then [ResponseMessage.Incorrect,
               ResponseMessage.GameComplete s.score]
         else [ResponseMessage.Incorrect, ResponseMessage.ChooseNextTopic])
      else
        ({ s with state := SessionState.Answering ⟨qid, n + 1⟩ },
         [ResponseMessage.PleaseRetryLimits (m - (n + 1))])) := by
  have hinv := EngineInv_reachable hwf hr
  have hatt : n < 255 := (hinv.2.2.2 ⟨qid, n⟩ hst).1
  have hmodn : (n + 1) % 256 = n + 1 := Nat.mod_eq_of_lt (by omega)
  have hsc : s.score + 0 < 65536 := score_add_lt hinv (by omega)
  have hmod : (s.score + 0) % 65536 = s.score := by omega
  have hres : s.results.length < g.topics.length :=
    answering_in_progress hinv hst
  by_cases hge : m ≤ n + 1
  · rw [if_pos hge]
    have hans : answer_question g s (answer_to_standard text) ⟨qid, n⟩ =
        some ({ s with
                  state := SessionState.ChoosingTopic,
                  results := s.results ++ [⟨qid.topic, 0⟩] },
              [ResponseMessage.Incorrect]) := by
      unfold answer_question
      simp only [hcorr, hmax, answer_was_incorrect, hmodn,
        GameSession.record, hmod, ge_iff_le, if_pos hge]
    rw [process_answering hst hstop hans]
    by_cases hc : s.results.length + 1 = g.topics.length
    · have hcomp : g.is_complete
          (({ s with
                state := SessionState.ChoosingTopic,
                results := s.results ++ [⟨qid.topic, 0⟩] } :
              GameSession).results.length) = true := by
        have hl : ({ s with
              state := SessionState.ChoosingTopic,
              results := s.results ++ [⟨qid.topic, 0⟩] } :
            GameSession).results.length = s.results.length + 1 := by simp
        rw [hl]
        exact is_complete_eq_true (by omega) (by omega) hc.symm
      rw [check_complete_true hcomp]
      rw [if_pos hc, if_pos hc]
      rfl
    · have hcomp : g.is_complete
          (({ s with
                state := SessionState.ChoosingTopic,
                results := s.results ++ [⟨qid.topic, 0⟩] } :
              GameSession).results.length) = false := by
        have hl : ({ s with
              state := SessionState.ChoosingTopic,
              results := s.results ++ [⟨qid.topic, 0⟩] } :
            GameSession).results.length = s.results.length + 1 := by simp
        rw [hl]
        exact is_complete_eq_false (by omega) (by omega) (fun hx => hc hx.symm)
      rw [check_complete_false_choosing hcomp rfl]
      rw [if_neg hc, if_neg hc]
      rfl
  · rw [if_neg hge]
    have hans : answer_question g s (answer_to_standard text) ⟨qid, n⟩ =
        some ({ s with state := SessionState.Answering ⟨qid, n + 1⟩ },
              [ResponseMessage.PleaseRetryLimits (m - (n + 1))]) := by
      unfold answer_question
      simp only [hcorr, hmax, answer_was_incorrect, hmodn, ge_iff_le,
        if_neg hge]
    rw [process_answering hst hstop hans]
    have hcomp : g.is_complete
        (({ s with state := SessionState.Answering ⟨qid, n + 1⟩ } :
            GameSession).results.length) = false := by
      show g.is_complete s.results.length = false
      exact is_complete_eq_false (by omega) (by omega) (by omega)
    rw [check_complete_false_other hcomp (by simp)]
    rfl

theorem claim_C3_witness :
    process gA sAnswerW "zz".data 0 = some
      (if 2 ≤ 0 + 1 then
        ({ sAnswerW with
            state := if sAnswerW.results.length + 1 = gA.topics.length
                     then SessionState.Complete
                     else SessionState.ChoosingTopic,
            results := sAnswerW.results ++
              [⟨(⟨0, 0⟩ : QuestionId).topic, 0⟩] },
         if sAnswerW.results.length + 1 = gA.topics.length
         then [ResponseMessage.Incorrect,
               ResponseMessage.GameComplete sAnswerW.score]
         else [ResponseMessage.Incorrect, ResponseMessage.ChooseNextTopic])
      else
        ({ sAnswerW with state := SessionState.Answering ⟨⟨0, 0⟩, 0 + 1⟩ },
         [ResponseMessage.PleaseRetryLimits (2 - (0 + 1))])) := by
  have h0 : Reachable gA (GameSession.new pidW 1) := Reachable.init pidW 1
  have e1 : process gA (GameSession.new pidW 1) "hi".data 0 =
      some (⟨pidW, 1, SessionState.Deciding, [], 0⟩,
            [ResponseMessage.Greeting "G".data]) := by decide
  have h1 := Reachable.step "hi".data 0 h0 e1
  have e2 : process gA ⟨pidW, 1, SessionState.Deciding, [], 0⟩ "yes".data 0 =
      some (⟨pidW, 1, SessionState.ChoosingTopic, [], 0⟩,
            [ResponseMessage.Rules ["key1".data, "key2".data]]) := by decide
  have h2 := Reachable.step "yes".data 0 h1 e2
  have e3 : process gA ⟨pidW, 1, SessionState.ChoosingTopic, [], 0⟩
      "key1".data 0 =
      some (sAnswerW, [ResponseMessage.AnswerQuestion "q1".data]) := by decide
  have h3 := Reachable.step "key1".data 0 h2 e3
  exact claim_C3 gA sAnswerW "zz".data 0 ⟨0, 0⟩ 0 2 (by decide) (by decide) h3
    rfl (by decide) (by decide) rfl

/-- C8: with no `maxAttempt` configured, an incorrect non-stop answer in a
reachable `Answering` session emits exactly `PleaseRetry` and leaves the
session unchanged (same state, same attempt counter, nothing recorded), so
arbitrarily many wrong answers keep the session fixed. -/
theorem claim_C8 (g : Game) (s : GameSession) (text : List Char) (r : Nat)
    (a : AnswerAttempt)
    (hwf : g.WF = true) (htl : g.topics.length ≤ 255)
    (hr : Reachable g s)
    (hst : s.state = SessionState.Answering a)
    (hmax : g.max_attempt = none)
    (hstop : g.is_stop (answer_to_standard text) = false)
    (hincorr : g.is_correct_answer a.question_id (answer_to_standard text) =
      some false) :
    process g s text r = some (s, [ResponseMessage.PleaseRetry]) := by
  have hinv := EngineInv_reachable hwf hr
  have hres : s.results.length < g.topics.length :=
    answering_in_progress hinv hst
  have hans : answer_question g s (answer_to_standard text) a =
      some (s, [ResponseMessage.PleaseRetry]) := by
    unfold answer_question
    simp only [hincorr, hmax]
  rw [process_answering hst hstop hans]
  have hcomp : g.is_complete s.results.length = false :=
    is_complete_eq_false (by omega) (by omega) (by omega)
  rw [check_complete_false_other hcomp (by rw [hst]; simp)]
  rfl

theorem claim_C8_witness :
    process gNoMax sAnswerW "zz".data 0 =
      some (sAnswerW, [ResponseMessage.PleaseRetry]) := by
  have h0 : Reachable gNoMax (GameSession.new pidW 1) := Reachable.init pidW 1
  have e1 : process gNoMax (GameSession.new pidW 1) "hi".data 0 =
      some (⟨pidW, 1, SessionState.Deciding, [], 0⟩,
            [ResponseMessage.Greeting "G".data]) := by decide
  have h1 := Reachable.step "hi".data 0 h0 e1
  have e2 : process gNoMax ⟨pidW, 1, SessionState.Deciding, [], 0⟩
      "yes".data 0 =
      some (⟨pidW, 1, SessionState.ChoosingTopic, [], 0⟩,
            [ResponseMessage.Rules ["key1".data, "key2".data]]) := by decide
  have h2 := Reachable.step "yes".data 0 h1 e2
  have e3 : process gNoMax ⟨pidW, 1, SessionState.ChoosingTopic, [], 0⟩
      "key1".data 0 =
      some (sAnswerW, [ResponseMessage.AnswerQuestion "q1".data]) := by decide
  have h3 := Reachable.step "key1".data 0 h2 e3
  exact claim_C8 gNoMax sAnswerW "zz".data 0 ⟨⟨0, 0⟩, 0⟩ (by decide)
    (by decide) h3 rfl rfl (by decide) (by decide)
